import Mathlib

/- A shallow embedding of the demostf/sync-rs session relay (src/main.rs with
src/client.rs). The in-memory session store is an association list from
session name to Session; the WebSocket send effects of each handler are
reified as lists of (recipient, command) pairs in send order; Instant is
replaced by a Nat timestamp in seconds, so Instant::now becomes an explicit
`now` argument threaded into the handlers that read the clock. -/

namespace SyncRs

/-- Connection identity: mio::Token wraps a usize. -/
abbrev Token := Nat

/-- The wire command union SyncCommand from src/main.rs. It has exactly the
four variants create, join, tick and play. -/
inductive SyncCommand where
  | create (session : String) (token : String)
  | join (session : String)
  | tick (session : String) (tick : Nat)
  | play (session : String) (play : Bool)
deriving DecidableEq

/-- Session from src/main.rs. `clients` holds the member identities, i.e. the
key set of the HashMap from Token to Client handles; `owner_left` embeds
Option Instant as an optional Nat timestamp. -/
structure Session where
  owner : Token
  owner_token : String
  clients : List Token
  tick : Nat
  playing : Bool
  owner_left : Option Nat
deriving DecidableEq

/-- Session::new: a fresh session owned by `owner` with the given token,
no members, tick 0, not playing, owner present. -/
def Session.new (owner : Token) (owner_token : String) : Session :=
  { owner := owner, owner_token := owner_token, clients := [],
    playing := false, tick := 0, owner_left := none }

/-- Session::join inserts the client into the member map keyed by its token;
HashMap::insert on a present key only replaces the handle, so the key set
gains `client` exactly when it was absent. -/
def Session.join (s : Session) (client : Token) : Session :=
  { s with clients := if client ∈ s.clients then s.clients else s.clients ++ [client] }

/-- Session::send_command: serialize the command once and send it to every
client in the member map (best effort, errors ignored). -/
def Session.send_command (s : Session) (command : SyncCommand) : List (Token × SyncCommand) :=
  s.clients.map (fun client => (client, command))

/-- The session store HashMap from String to Session, embedded as an
association list; every store built by the server has pairwise distinct
keys. -/
abbrev Store := List (String × Session)

/-- HashMap lookup (the get / get_mut of the Rust code): the entry under the
given name. -/
def Store.find : Store → String → Option Session
  | [], _ => none
  | (k, s) :: rest, name => if k = name then some s else Store.find rest name

/-- Mutation through get_mut or and_modify: apply `f` to the entry under
`name`, leaving entries under other names untouched. -/
def Store.modify : Store → String → (Session → Session) → Store
  | [], _, _ => []
  | (k, s) :: rest, name, f =>
      (k, if k = name then f s else s) :: Store.modify rest name f

/-- TIMEOUT = Duration::from_secs(15 * 60), in seconds. -/
def TIMEOUT : Nat := 15 * 60

/-- The retain predicate of gc_sessions, exactly as written in the source:
HashMap::retain keeps an entry when the closure returns true, and the closure
returns `now.duration_since(left) > TIMEOUT` for an absent owner and true for
a present one. -/
def gc_keep (now : Nat) (s : Session) : Bool :=
  match s.owner_left with
  | some left => TIMEOUT < now - left
  | none => true

/-- gc_sessions from src/main.rs: retain the sessions satisfying gc_keep. -/
def gc_sessions (now : Nat) (store : Store) : Store :=
  store.filter (fun p => gc_keep now p.2)

/-- The and_modify closure of the Create branch of handle_command: when the
supplied token matches the stored owner_token, the sender becomes the owner
and the absence mark is cleared; otherwise the session is untouched. -/
def create_modify (sender : Token) (token : String) (s : Session) : Session :=
  if token = s.owner_token then { s with owner := sender, owner_left := none } else s

/-- The entry(name).and_modify(..).or_insert_with(..) of the Create branch:
modify the existing entry, or insert a fresh Session::new when the name is
absent. -/
def create_entry (sender : Token) (name token : String) (store : Store) : Store :=
  match Store.find store name with
  | some _ => Store.modify store name (create_modify sender token)
  | none => store ++ [(name, Session.new sender token)]

/-- update_session_and_forward from src/main.rs: look up the session; only
when the sender is its owner, apply the update and forward the received
command to every member; otherwise, and when the session is unknown, nothing
changes and nothing is sent (the unknown case only logs). -/
def update_session_and_forward (sender : Token) (store : Store) (session_name : String)
    (update_fn : Session → Session) (command : SyncCommand) :
    Store × List (Token × SyncCommand) :=
  match Store.find store session_name with
  | some session =>
      if session.owner = sender then
        (Store.modify store session_name update_fn,
         Session.send_command (update_fn session) command)
      else (store, [])
  | none => (store, [])

/-- handle_command from src/main.rs with the ambient clock passed as `now`;
all sends are returned as (recipient, command) pairs in send order. Create
runs a GC sweep after the entry update; Join on an existing session sends the
current tick then the current playing value to the caller and then adds the
caller to the members; Tick and Play go through update_session_and_forward. -/
def handle_command (now : Nat) (command : SyncCommand) (sender : Token) (store : Store) :
    Store × List (Token × SyncCommand) :=
  match command with
  | .create session token =>
      (gc_sessions now (create_entry sender session token store), [])
  | .join session_name =>
      match Store.find store session_name with
      | some session =>
          (Store.modify store session_name (fun s => Session.join s sender),
           [(sender, SyncCommand.tick session_name session.tick),
            (sender, SyncCommand.play session_name session.playing)])
      | none => (store, [])
  | .tick session_name t =>
      update_session_and_forward sender store session_name
        (fun s => { s with tick := t }) (SyncCommand.tick session_name t)
  | .play session_name p =>
      update_session_and_forward sender store session_name
        (fun s => { s with playing := p }) (SyncCommand.play session_name p)

/-- The per-session effect of Server::on_close for a disconnecting peer:
mark owner absence when the peer owned the session, then drop the peer from
the member map. -/
def close_session (now : Nat) (peer : Token) (s : Session) : Session :=
  let s1 := if s.owner = peer then { s with owner_left := some now } else s
  { s1 with clients := s1.clients.filter (fun c => c != peer) }

/-- Server::on_close: apply close_session to every session in the store; no
entry is inserted or removed. -/
def on_close (now : Nat) (peer : Token) (store : Store) : Store :=
  store.map (fun p => (p.1, close_session now peer p.2))

/-- An inbound WebSocket frame (parity_ws::Message): text or binary. -/
inductive Frame where
  | text (s : String)
  | binary (data : List Nat)

/-- Message::as_text: the payload for a text frame, an error (none) for a
binary frame. -/
def Frame.as_text : Frame → Option String
  | .text s => some s
  | .binary _ => none

/-- Server::on_message: take the frame text (a binary frame yields the empty
string through unwrap_or_default), decode it with serde_json::from_str —
abstracted here as the `parse` argument — dispatch a well-formed command and
silently drop everything else. Both branches return Ok, embedded as the
final `true`. -/
def on_message (parse : String → Option SyncCommand) (now : Nat) (sender : Token)
    (msg : Frame) (store : Store) : Store × List (Token × SyncCommand) × Bool :=
  match parse ((Frame.as_text msg).getD "") with
  | some command =>
      let r := handle_command now command sender store
      (r.1, r.2, true)
  | none => (store, [], true)

/-- One externally triggered server operation: a decoded client command
handled on behalf of its sender, or a connection close. -/
inductive Op where
  | msg (sender : Token) (command : SyncCommand)
  | close (peer : Token)

/-- The store after one operation, the sends discarded. -/
def step (now : Nat) (op : Op) (store : Store) : Store :=
  match op with
  | .msg sender command => (handle_command now command sender store).1
  | .close peer => on_close now peer store

/-- Lookup under the modified name sees the update applied. -/
theorem Store.find_modify_self (store : Store) (name : String) (f : Session → Session) :
    Store.find (Store.modify store name f) name = (Store.find store name).map f := by
  induction store with
  | nil => rfl
  | cons hd tl ih =>
      obtain ⟨k, s⟩ := hd
      by_cases hk : k = name <;> simp [Store.modify, Store.find, hk, ih]

/-- Lookup under any other name is unaffected by a modification. -/
theorem Store.find_modify_other (store : Store) (name other : String)
    (f : Session → Session) (h : other ≠ name) :
    Store.find (Store.modify store name f) other = Store.find store other := by
  induction store with
  | nil => rfl
  | cons hd tl ih =>
      obtain ⟨k, s⟩ := hd
      by_cases hko : k = other
      · subst hko
        simp [Store.modify, Store.find, h]
      · simp [Store.modify, Store.find, hko, ih]

/-- Modification does not change the key list. -/
theorem Store.modify_map_fst (store : Store) (name : String) (f : Session → Session) :
    (Store.modify store name f).map Prod.fst = store.map Prod.fst := by
  induction store with
  | nil => rfl
  | cons hd tl ih =>
      obtain ⟨k, s⟩ := hd
      by_cases hk : k = name <;> simp [Store.modify, hk, ih]

/-- A name that is not among the keys looks up to none. -/
theorem Store.find_eq_none_of_not_mem (store : Store) (name : String)
    (h : name ∉ store.map Prod.fst) : Store.find store name = none := by
  induction store with
  | nil => rfl
  | cons hd tl ih =>
      obtain ⟨k, s⟩ := hd
      simp only [List.map_cons, List.mem_cons] at h
      push_neg at h
      have hk : ¬k = name := fun hh => h.1 hh.symm
      simp [Store.find, hk, ih h.2]

/-- A name that looks up to none is not among the keys. -/
theorem Store.not_mem_of_find_eq_none (store : Store) (name : String)
    (h : Store.find store name = none) : name ∉ store.map Prod.fst := by
  induction store with
  | nil => simp
  | cons hd tl ih =>
      obtain ⟨k, s⟩ := hd
      by_cases hk : k = name
      · simp [Store.find, hk] at h
      · simp only [Store.find, hk, if_false] at h
        have hnk : ¬name = k := fun hh => hk hh.symm
        simp [hnk, ih h]

/-- Modifying a name that is absent from the keys is the identity. -/
theorem Store.modify_not_mem (store : Store) (name : String) (f : Session → Session)
    (h : name ∉ store.map Prod.fst) : Store.modify store name f = store := by
  induction store with
  | nil => rfl
  | cons hd tl ih =>
      obtain ⟨k, s⟩ := hd
      simp only [List.map_cons, List.mem_cons] at h
      push_neg at h
      have hk : ¬k = name := fun hh => h.1 hh.symm
      simp [Store.modify, hk, ih h.2]

/-- With unique keys, two modifications agree as soon as the update functions
agree on the session found under the name. -/
theorem Store.modify_congr (store : Store) (name : String) (f g : Session → Session)
    (hnd : (store.map Prod.fst).Nodup)
    (h : ∀ s, Store.find store name = some s → f s = g s) :
    Store.modify store name f = Store.modify store name g := by
  induction store with
  | nil => rfl
  | cons hd tl ih =>
      obtain ⟨k, s⟩ := hd
      simp only [List.map_cons, List.nodup_cons] at hnd
      by_cases hk : k = name
      · have hfs : f s = g s := h s (by simp [Store.find, hk])
        have htl : Store.modify tl name f = Store.modify tl name g := by
          have : name ∉ tl.map Prod.fst := hk ▸ hnd.1
          rw [Store.modify_not_mem tl name f this, Store.modify_not_mem tl name g this]
        simp [Store.modify, hk, hfs, htl]
      · have htl := ih hnd.2 (fun s' hs' => h s' (by simp [Store.find, hk, hs']))
        simp [Store.modify, hk, htl]

/-- Modifying with the identity is the identity. -/
theorem Store.modify_id (store : Store) (name : String) :
    Store.modify store name (fun s => s) = store := by
  induction store with
  | nil => rfl
  | cons hd tl ih =>
      obtain ⟨k, s⟩ := hd
      by_cases hk : k = name <;> simp [Store.modify, hk, ih]

/-- A successful lookup is preserved by appending entries on the right. -/
theorem Store.find_append_some (l₁ l₂ : Store) (name : String) (s : Session)
    (h : Store.find l₁ name = some s) : Store.find (l₁ ++ l₂) name = some s := by
  induction l₁ with
  | nil => simp [Store.find] at h
  | cons hd tl ih =>
      obtain ⟨k, s'⟩ := hd
      by_cases hk : k = name
      · simp only [Store.find, hk, if_true] at h
        simp [Store.find, hk, h]
      · simp only [Store.find, hk, if_false] at h
        simp [Store.find, hk, ih h]

/-- Lookup distributes over append when the name misses the left part. -/
theorem Store.find_append_right (l₁ l₂ : Store) (name : String)
    (h : Store.find l₁ name = none) : Store.find (l₁ ++ l₂) name = Store.find l₂ name := by
  induction l₁ with
  | nil => rfl
  | cons hd tl ih =>
      obtain ⟨k, s'⟩ := hd
      by_cases hk : k = name
      · simp [Store.find, hk] at h
      · simp only [Store.find, hk, if_false] at h
        simp [Store.find, hk, ih h]

/-- With unique keys, an entry found after a filter was already the entry
found before the filter. -/
theorem Store.find_filter_nodup (store : Store) (q : String × Session → Bool)
    (name : String) (x : Session) (hnd : (store.map Prod.fst).Nodup)
    (hx : Store.find (store.filter q) name = some x) :
    Store.find store name = some x := by
  induction store with
  | nil => simp [Store.find] at hx
  | cons hd tl ih =>
      obtain ⟨k, s⟩ := hd
      simp only [List.map_cons, List.nodup_cons] at hnd
      by_cases hq : q (k, s)
      · rw [List.filter_cons_of_pos hq] at hx
        by_cases hk : k = name
        · simp only [Store.find, hk, if_true] at hx ⊢
          exact hx
        · simp only [Store.find, hk, if_false] at hx ⊢
          exact ih hnd.2 hx
      · rw [List.filter_cons_of_neg hq] at hx
        have htl := ih hnd.2 hx
        by_cases hk : k = name
        · exfalso
          have : name ∉ tl.map Prod.fst := hk ▸ hnd.1
          rw [Store.find_eq_none_of_not_mem tl name this] at htl
          exact Option.noConfusion htl
        · simp [Store.find, hk, htl]

/-- Lookup commutes with the per-entry map of on_close. -/
theorem Store.find_on_close (now : Nat) (peer : Token) (store : Store) (name : String) :
    Store.find (on_close now peer store) name
      = (Store.find store name).map (close_session now peer) := by
  induction store with
  | nil => rfl
  | cons hd tl ih =>
      obtain ⟨k, s⟩ := hd
      by_cases hk : k = name
      · simp [on_close, Store.find, hk]
      · simp only [on_close, List.map_cons, Store.find, hk, if_false] at ih ⊢
        exact ih

/-- C1: the claim is right and gc_sessions is wrong. HashMap::retain keeps the
entries whose predicate is true, and the predicate the code passes is the
removal condition `now.duration_since(left) > TIMEOUT`; the sweep therefore
keeps exactly the sessions whose owner has been absent for more than fifteen
minutes and deletes the ones absent for at most fifteen minutes, the opposite
of the claim and of the function's own doc comment. Concrete run at
now = 1000 s: a session absent since 0 (absent 1000 s > 900 s) survives the
sweep although the claim removes it, while a session absent since 950
(absent 50 s ≤ 900 s) is deleted although the claim retains it; a session
with no absence mark is kept, as claimed. -/
theorem gc_sessions_inverts_timeout :
    gc_sessions 1000
      [("long", { owner := 1, owner_token := "a", clients := [], tick := 0,
                  playing := false, owner_left := some 0 }),
       ("short", { owner := 2, owner_token := "b", clients := [], tick := 0,
                   playing := false, owner_left := some 950 }),
       ("here", { owner := 3, owner_token := "c", clients := [], tick := 0,
                  playing := false, owner_left := none })]
      = [("long", { owner := 1, owner_token := "a", clients := [], tick := 0,
                    playing := false, owner_left := some 0 }),
         ("here", { owner := 3, owner_token := "c", clients := [], tick := 0,
                    playing := false, owner_left := none })] := by
  rfl

/-- C3: a tick or play command whose sender is not the owner of the named
session (vacuously, also one naming an unknown session) leaves the whole
store unchanged and sends no message to anyone. -/
theorem non_owner_tick_play_noop (now : Nat) (sender : Token) (store : Store)
    (name : String) (t : Nat) (p : Bool)
    (h : ∀ sess, Store.find store name = some sess → sess.owner ≠ sender) :
    handle_command now (SyncCommand.tick name t) sender store = (store, []) ∧
    handle_command now (SyncCommand.play name p) sender store = (store, []) := by
  constructor <;>
  · simp only [handle_command, update_session_and_forward]
    cases hf : Store.find store name with
    | none => rfl
    | some sess => simp [h sess hf]

/-- C3 witness: a non-owner tick and play on a concrete one-session store. -/
theorem non_owner_tick_play_noop_witness :
    handle_command 0 (SyncCommand.tick "s" 5) 2
        [("s", { owner := 1, owner_token := "t", clients := [3], tick := 0,
                 playing := false, owner_left := none })]
      = ([("s", { owner := 1, owner_token := "t", clients := [3], tick := 0,
                  playing := false, owner_left := none })], []) ∧
    handle_command 0 (SyncCommand.play "s" true) 2
        [("s", { owner := 1, owner_token := "t", clients := [3], tick := 0,
                 playing := false, owner_left := none })]
      = ([("s", { owner := 1, owner_token := "t", clients := [3], tick := 0,
                  playing := false, owner_left := none })], []) :=
  non_owner_tick_play_noop 0 2 _ "s" 5 true (by
    intro sess hs
    cases Option.some.inj hs
    decide)

/-- C4: joining an existing session delivers exactly the tick message with the
current tick followed by the play message with the current playing value to
the caller, and the resulting store holds the session with the caller added
to its member set. -/
theorem join_initial_state (now : Nat) (sender : Token) (store : Store)
    (name : String) (sess : Session) (h : Store.find store name = some sess) :
    (handle_command now (SyncCommand.join name) sender store).2
      = [(sender, SyncCommand.tick name sess.tick),
         (sender, SyncCommand.play name sess.playing)] ∧
    Store.find (handle_command now (SyncCommand.join name) sender store).1 name
      = some { sess with clients :=
          if sender ∈ sess.clients then sess.clients else sess.clients ++ [sender] } := by
  have hc : handle_command now (SyncCommand.join name) sender store
      = (Store.modify store name (fun s => Session.join s sender),
         [(sender, SyncCommand.tick name sess.tick),
          (sender, SyncCommand.play name sess.playing)]) := by
    simp [handle_command, h]
  rw [hc]
  refine ⟨rfl, ?_⟩
  rw [Store.find_modify_self, h]
  rfl

/-- C4 witness: joining a concrete session with non-default state tick 7,
playing true; the joiner 2 receives tick 7 then play true and is added. -/
theorem join_initial_state_witness :
    (handle_command 0 (SyncCommand.join "s") 2
        [("s", { owner := 1, owner_token := "t", clients := [], tick := 7,
                 playing := true, owner_left := none })]).2
      = [(2, SyncCommand.tick "s" 7), (2, SyncCommand.play "s" true)] ∧
    Store.find (handle_command 0 (SyncCommand.join "s") 2
        [("s", { owner := 1, owner_token := "t", clients := [], tick := 7,
                 playing := true, owner_left := none })]).1 "s"
      = some { owner := 1, owner_token := "t", clients := [2], tick := 7,
               playing := true, owner_left := none } :=
  join_initial_state 0 2 _ "s"
    { owner := 1, owner_token := "t", clients := [], tick := 7,
      playing := true, owner_left := none } rfl

/-- C2 counterexample: peer 2 joins the existing session "s" owned by peer 1;
the handler produces no message addressed to the owner at all — so in
particular no member-count report. The SyncCommand union of src/main.rs has
only the variants create, join, tick and play, and the Join branch only ever
sends to the caller. -/
theorem join_owner_not_notified_cex :
    ((handle_command 0 (SyncCommand.join "s") 2
        [("s", { owner := 1, owner_token := "t", clients := [], tick := 0,
                 playing := false, owner_left := none })]).2.filter
      (fun m => m.1 == 1)) = [] := by
  rfl

/-- C2 amended: for every Join naming an existing session, every message the
handler produces is addressed to the joining caller — the session owner is
sent nothing, because the protocol has no member-count message type. -/
theorem join_messages_all_to_caller (now : Nat) (sender : Token) (store : Store)
    (name : String) (sess : Session) (h : Store.find store name = some sess) :
    ((handle_command now (SyncCommand.join name) sender store).2.filter
      (fun m => m.1 != sender)) = [] := by
  simp [handle_command, h]

/-- C2 witness: the amended statement at a concrete join on session "s". -/
theorem join_messages_all_to_caller_witness :
    ((handle_command 0 (SyncCommand.join "s") 2
        [("s", { owner := 1, owner_token := "t", clients := [], tick := 9,
                 playing := true, owner_left := none })]).2.filter
      (fun m => m.1 != 2)) = [] :=
  join_messages_all_to_caller 0 2 _ "s"
    { owner := 1, owner_token := "t", clients := [], tick := 9,
      playing := true, owner_left := none } rfl

/-- C6: when the sender owns the existing session, a tick updates the tick
field and forwards exactly the received tick command to every member, and a
play does the same with the playing field and the play command; the owner
itself receives the forwarded command exactly when it is in the member set. -/
theorem owner_tick_play_forward (now : Nat) (sender : Token) (store : Store)
    (name : String) (sess : Session) (t : Nat) (p : Bool)
    (h : Store.find store name = some sess) (ho : sess.owner = sender) :
    handle_command now (SyncCommand.tick name t) sender store
      = (Store.modify store name (fun s => { s with tick := t }),
         sess.clients.map (fun c => (c, SyncCommand.tick name t))) ∧
    handle_command now (SyncCommand.play name p) sender store
      = (Store.modify store name (fun s => { s with playing := p }),
         sess.clients.map (fun c => (c, SyncCommand.play name p))) ∧
    ((sender, SyncCommand.tick name t)
        ∈ (handle_command now (SyncCommand.tick name t) sender store).2
      ↔ sender ∈ sess.clients) := by
  have h1 : handle_command now (SyncCommand.tick name t) sender store
      = (Store.modify store name (fun s => { s with tick := t }),
         sess.clients.map (fun c => (c, SyncCommand.tick name t))) := by
    simp [handle_command, update_session_and_forward, h, ho, Session.send_command]
  have h2 : handle_command now (SyncCommand.play name p) sender store
      = (Store.modify store name (fun s => { s with playing := p }),
         sess.clients.map (fun c => (c, SyncCommand.play name p))) := by
    simp [handle_command, update_session_and_forward, h, ho, Session.send_command]
  refine ⟨h1, h2, ?_⟩
  rw [h1]
  simp

/-- C6 witness: owner 1 ticks session "s" with members 2 and 3 (1 not among
them); both members get the command, the owner does not. -/
theorem owner_tick_play_forward_witness :
    handle_command 0 (SyncCommand.tick "s" 42) 1
        [("s", { owner := 1, owner_token := "t", clients := [2, 3], tick := 0,
                 playing := false, owner_left := none })]
      = (Store.modify
          [("s", { owner := 1, owner_token := "t", clients := [2, 3], tick := 0,
                   playing := false, owner_left := none })] "s"
          (fun s => { s with tick := 42 }),
         [(2, SyncCommand.tick "s" 42), (3, SyncCommand.tick "s" 42)]) ∧
    ¬(1, SyncCommand.tick "s" 42)
        ∈ (handle_command 0 (SyncCommand.tick "s" 42) 1
            [("s", { owner := 1, owner_token := "t", clients := [2, 3], tick := 0,
                     playing := false, owner_left := none })]).2 := by
  have hmain := owner_tick_play_forward 0 1
    [("s", { owner := 1, owner_token := "t", clients := [2, 3], tick := 0,
             playing := false, owner_left := none })] "s"
    { owner := 1, owner_token := "t", clients := [2, 3], tick := 0,
      playing := false, owner_left := none } 42 false rfl rfl
  refine ⟨hmain.1, ?_⟩
  rw [hmain.2.2]
  decide

/-- C10: an owner tick rewrites only the named session's tick field, an owner
play only its playing field; the owner, owner_token, clients and owner_left
fields keep their values (visible in the record updates), and the entry under
every other name is untouched. -/
theorem owner_tick_play_frame (now : Nat) (sender : Token) (store : Store)
    (name : String) (sess : Session) (t : Nat) (p : Bool)
    (h : Store.find store name = some sess) (ho : sess.owner = sender) :
    (Store.find (handle_command now (SyncCommand.tick name t) sender store).1 name
       = some { sess with tick := t } ∧
     ∀ other, other ≠ name →
       Store.find (handle_command now (SyncCommand.tick name t) sender store).1 other
         = Store.find store other) ∧
    (Store.find (handle_command now (SyncCommand.play name p) sender store).1 name
       = some { sess with playing := p } ∧
     ∀ other, other ≠ name →
       Store.find (handle_command now (SyncCommand.play name p) sender store).1 other
         = Store.find store other) := by
  have h1 : (handle_command now (SyncCommand.tick name t) sender store).1
      = Store.modify store name (fun s => { s with tick := t }) := by
    simp [handle_command, update_session_and_forward, h, ho]
  have h2 : (handle_command now (SyncCommand.play name p) sender store).1
      = Store.modify store name (fun s => { s with playing := p }) := by
    simp [handle_command, update_session_and_forward, h, ho]
  rw [h1, h2]
  refine ⟨⟨?_, ?_⟩, ?_, ?_⟩
  · rw [Store.find_modify_self, h]
    rfl
  · intro other hother
    exact Store.find_modify_other store name other _ hother
  · rw [Store.find_modify_self, h]
    rfl
  · intro other hother
    exact Store.find_modify_other store name other _ hother

/-- C10 witness: owner 1 ticks "s" in a two-session store; "s" has only its
tick changed and the unrelated session "u" is untouched. -/
theorem owner_tick_play_frame_witness :
    Store.find (handle_command 0 (SyncCommand.tick "s" 5) 1
        [("s", { owner := 1, owner_token := "t", clients := [2], tick := 0,
                 playing := true, owner_left := some 3 }),
         ("u", { owner := 4, owner_token := "w", clients := [], tick := 8,
                 playing := false, owner_left := none })]).1 "s"
      = some { owner := 1, owner_token := "t", clients := [2], tick := 5,
               playing := true, owner_left := some 3 } ∧
    Store.find (handle_command 0 (SyncCommand.tick "s" 5) 1
        [("s", { owner := 1, owner_token := "t", clients := [2], tick := 0,
                 playing := true, owner_left := some 3 }),
         ("u", { owner := 4, owner_token := "w", clients := [], tick := 8,
                 playing := false, owner_left := none })]).1 "u"
      = Store.find
        [("s", { owner := 1, owner_token := "t", clients := [2], tick := 0,
                 playing := true, owner_left := some 3 }),
         ("u", { owner := 4, owner_token := "w", clients := [], tick := 8,
                 playing := false, owner_left := none })] "u" := by
  have hmain := owner_tick_play_frame 0 1
    [("s", { owner := 1, owner_token := "t", clients := [2], tick := 0,
             playing := true, owner_left := some 3 }),
     ("u", { owner := 4, owner_token := "w", clients := [], tick := 8,
             playing := false, owner_left := none })] "s"
    { owner := 1, owner_token := "t", clients := [2], tick := 0,
      playing := true, owner_left := some 3 } 5 false rfl rfl
  exact ⟨hmain.1.1, hmain.1.2 "u" (by decide)⟩

/-- C9: when the inbound frame is not text (so its text defaults to the empty
string) or its text fails to decode to a command, on_message leaves the store
untouched, sends nothing, and still returns Ok, keeping the connection open. -/
theorem on_message_discard (parse : String → Option SyncCommand) (now : Nat)
    (sender : Token) (msg : Frame) (store : Store)
    (h : parse ((Frame.as_text msg).getD "") = none) :
    on_message parse now sender msg store = (store, [], true) := by
  simp [on_message, h]

/-- C9 witness: a binary frame under a decoder that rejects everything, on a
concrete one-session store. -/
theorem on_message_discard_witness :
    on_message (fun _ => none) 0 7 (Frame.binary [104, 105])
        [("s", { owner := 1, owner_token := "t", clients := [2], tick := 3,
                 playing := true, owner_left := none })]
      = ([("s", { owner := 1, owner_token := "t", clients := [2], tick := 3,
                  playing := true, owner_left := none })], [], true) :=
  on_message_discard (fun _ => none) 0 7 (Frame.binary [104, 105]) _ rfl

/-- close_session never changes the owner field. -/
theorem close_session_owner (now : Nat) (peer : Token) (s : Session) :
    (close_session now peer s).owner = s.owner := by
  by_cases h : s.owner = peer <;> simp [close_session, h]

/-- close_session written as a single record update: the peer is filtered out
of the members, and the absence mark is set exactly when the peer was the
owner. -/
theorem close_session_eq (now : Nat) (peer : Token) (s : Session) :
    close_session now peer s
      = { s with clients := s.clients.filter (fun c => c != peer),
                 owner_left := if s.owner = peer then some now else s.owner_left } := by
  by_cases h : s.owner = peer <;> simp [close_session, h]

/-- C8: a disconnect of `peer` removes the peer from every session's member
set and sets the absence mark (to now) exactly on the sessions the peer
owned; names absent before stay absent and the store keeps its size, so no
session is deleted. -/
theorem on_close_spec (now : Nat) (peer : Token) (store : Store) :
    (∀ name sess, Store.find store name = some sess →
        Store.find (on_close now peer store) name
          = some { sess with
                   clients := sess.clients.filter (fun c => c != peer),
                   owner_left := if sess.owner = peer then some now
                                 else sess.owner_left }) ∧
    (∀ name sess', Store.find (on_close now peer store) name = some sess' →
        peer ∉ sess'.clients) ∧
    (∀ name, Store.find store name = none →
        Store.find (on_close now peer store) name = none) ∧
    (on_close now peer store).length = store.length := by
  refine ⟨?_, ?_, ?_, ?_⟩
  · intro name sess h
    rw [Store.find_on_close, h, Option.map_some', close_session_eq]
  · intro name sess' h
    rw [Store.find_on_close] at h
    cases hf : Store.find store name with
    | none => rw [hf] at h; exact Option.noConfusion h
    | some sess =>
        rw [hf, Option.map_some'] at h
        cases Option.some.inj h
        rw [close_session_eq]
        simp
  · intro name h
    rw [Store.find_on_close, h, Option.map_none']
  · simp [on_close]

/-- C8 witness: peer 1, who owns "a" (and is a member of both "a" and "b"),
disconnects at time 5: it is dropped from both member sets, only "a" gets the
absence mark, a missing name stays missing, and both sessions survive. -/
theorem on_close_spec_witness :
    Store.find (on_close 5 1
        [("a", { owner := 1, owner_token := "t", clients := [1, 2], tick := 3,
                 playing := true, owner_left := none }),
         ("b", { owner := 4, owner_token := "w", clients := [1], tick := 0,
                 playing := false, owner_left := none })]) "a"
      = some { owner := 1, owner_token := "t", clients := [2], tick := 3,
               playing := true, owner_left := some 5 } ∧
    Store.find (on_close 5 1
        [("a", { owner := 1, owner_token := "t", clients := [1, 2], tick := 3,
                 playing := true, owner_left := none }),
         ("b", { owner := 4, owner_token := "w", clients := [1], tick := 0,
                 playing := false, owner_left := none })]) "b"
      = some { owner := 4, owner_token := "w", clients := [], tick := 0,
               playing := false, owner_left := none } ∧
    Store.find (on_close 5 1
        [("a", { owner := 1, owner_token := "t", clients := [1, 2], tick := 3,
                 playing := true, owner_left := none }),
         ("b", { owner := 4, owner_token := "w", clients := [1], tick := 0,
                 playing := false, owner_left := none })]) "c" = none ∧
    (on_close 5 1
        [("a", { owner := 1, owner_token := "t", clients := [1, 2], tick := 3,
                 playing := true, owner_left := none }),
         ("b", { owner := 4, owner_token := "w", clients := [1], tick := 0,
                 playing := false, owner_left := none })]).length = 2 := by
  have hmain := on_close_spec 5 1
    [("a", { owner := 1, owner_token := "t", clients := [1, 2], tick := 3,
             playing := true, owner_left := none }),
     ("b", { owner := 4, owner_token := "w", clients := [1], tick := 0,
             playing := false, owner_left := none })]
  refine ⟨?_, ?_, ?_, ?_⟩
  · have := hmain.1 "a"
      { owner := 1, owner_token := "t", clients := [1, 2], tick := 3,
        playing := true, owner_left := none } rfl
    simpa using this
  · have := hmain.1 "b"
      { owner := 4, owner_token := "w", clients := [1], tick := 0,
        playing := false, owner_left := none } rfl
    simpa using this
  · exact hmain.2.2.1 "c" rfl
  · exact hmain.2.2.2

/-- C5: Create inserts a fresh session with the claimed field values when the
name is unused; when the name exists and the token matches, only owner and
owner_left change (owner to the caller, owner_left cleared); when the token
mismatches, the store is returned unchanged. Stated about the entry update
that the Create branch performs before its GC sweep. -/
theorem create_entry_spec (sender : Token) (name tok : String) (store : Store)
    (hnd : (store.map Prod.fst).Nodup) :
    (Store.find store name = none →
       create_entry sender name tok store
         = store ++ [(name, { owner := sender, owner_token := tok, clients := [],
                              tick := 0, playing := false, owner_left := none })]) ∧
    (∀ sess, Store.find store name = some sess → tok = sess.owner_token →
       create_entry sender name tok store
         = Store.modify store name
             (fun s => { s with owner := sender, owner_left := none })) ∧
    (∀ sess, Store.find store name = some sess → tok ≠ sess.owner_token →
       create_entry sender name tok store = store) := by
  refine ⟨?_, ?_, ?_⟩
  · intro h
    simp [create_entry, h, Session.new]
  · intro sess h htok
    simp only [create_entry, h]
    exact Store.modify_congr store name _ _ hnd (fun s hs => by
      rw [h] at hs
      cases Option.some.inj hs
      simp [create_modify, htok])
  · intro sess h htok
    simp only [create_entry, h]
    have hcongr := Store.modify_congr store name (create_modify sender tok)
      (fun s => s) hnd (fun s hs => by
        rw [h] at hs
        cases Option.some.inj hs
        simp [create_modify, htok])
    rw [hcongr, Store.modify_id]

/-- C5 witness: creating "s" in the empty store inserts the fresh session;
re-creating it with the right token moves ownership to the caller and clears
the absence mark while keeping tick, playing and members; re-creating it with
a wrong token changes nothing. -/
theorem create_entry_spec_witness :
    create_entry 2 "s" "t" []
      = [("s", { owner := 2, owner_token := "t", clients := [], tick := 0,
                 playing := false, owner_left := none })] ∧
    create_entry 2 "s" "t"
        [("s", { owner := 1, owner_token := "t", clients := [3], tick := 9,
                 playing := true, owner_left := some 4 })]
      = [("s", { owner := 2, owner_token := "t", clients := [3], tick := 9,
                 playing := true, owner_left := none })] ∧
    create_entry 2 "s" "x"
        [("s", { owner := 1, owner_token := "t", clients := [3], tick := 9,
                 playing := true, owner_left := some 4 })]
      = [("s", { owner := 1, owner_token := "t", clients := [3], tick := 9,
                 playing := true, owner_left := some 4 })] := by
  refine ⟨?_, ?_, ?_⟩
  · have := (create_entry_spec 2 "s" "t" [] (by simp)).1 rfl
    simpa using this
  · have := (create_entry_spec 2 "s" "t"
        [("s", { owner := 1, owner_token := "t", clients := [3], tick := 9,
                 playing := true, owner_left := some 4 })] (by simp)).2.1
      { owner := 1, owner_token := "t", clients := [3], tick := 9,
        playing := true, owner_left := some 4 } rfl rfl
    simpa [Store.modify] using this
  · exact (create_entry_spec 2 "s" "x"
        [("s", { owner := 1, owner_token := "t", clients := [3], tick := 9,
                 playing := true, owner_left := some 4 })] (by simp)).2.2
      { owner := 1, owner_token := "t", clients := [3], tick := 9,
        playing := true, owner_left := some 4 } rfl (by decide)

/-- The create entry update keeps keys pairwise distinct. -/
theorem create_entry_nodup (sender : Token) (name tok : String) (store : Store)
    (hnd : (store.map Prod.fst).Nodup) :
    ((create_entry sender name tok store).map Prod.fst).Nodup := by
  unfold create_entry
  cases hf : Store.find store name with
  | some sess =>
      rw [Store.modify_map_fst]
      exact hnd
  | none =>
      rw [List.map_append]
      refine List.Nodup.append hnd (by simp) ?_
      intro a ha1 ha2
      simp only [List.map_cons, List.map_nil, List.mem_singleton] at ha2
      subst ha2
      exact Store.not_mem_of_find_eq_none store _ hf ha1

/-- C7: over a store with unique keys, if a session survives an operation (a
handled command or a disconnect) with a different owner, then that operation
was a Create naming the session, carrying exactly the stored owner_token, and
the new owner is the sender of that Create. No other operation ever changes
an owner. -/
theorem owner_changes_only_matching_create (now : Nat) (op : Op) (store : Store)
    (name : String) (s s' : Session)
    (hnd : (store.map Prod.fst).Nodup)
    (hb : Store.find store name = some s)
    (ha : Store.find (step now op store) name = some s')
    (hch : s'.owner ≠ s.owner) :
    op = Op.msg s'.owner (SyncCommand.create name s.owner_token) := by
  cases op with
  | close peer =>
      exfalso
      simp only [step] at ha
      rw [Store.find_on_close, hb, Option.map_some'] at ha
      cases Option.some.inj ha
      exact hch (close_session_owner now peer s)
  | msg sender cmd =>
      cases cmd with
      | join n =>
          exfalso
          simp only [step, handle_command] at ha
          cases hf : Store.find store n with
          | none =>
              rw [hf] at ha
              simp only [Store.find] at ha
              rw [hb] at ha
              exact hch (congrArg Session.owner (Option.some.inj ha.symm))
          | some sess =>
              rw [hf] at ha
              simp only [] at ha
              by_cases hn : n = name
              · subst hn
                rw [Store.find_modify_self, hb, Option.map_some'] at ha
                cases Option.some.inj ha
                exact hch rfl
              · rw [Store.find_modify_other store n name _ (fun hh => hn hh.symm),
                  hb] at ha
                exact hch (congrArg Session.owner (Option.some.inj ha.symm))
      | tick n t =>
          exfalso
          simp only [step, handle_command, update_session_and_forward] at ha
          cases hf : Store.find store n with
          | none =>
              rw [hf] at ha
              simp only [Store.find] at ha
              rw [hb] at ha
              exact hch (congrArg Session.owner (Option.some.inj ha.symm))
          | some sess =>
              rw [hf] at ha
              simp only [] at ha
              by_cases howner : sess.owner = sender
              · rw [if_pos howner] at ha
                simp only [] at ha
                by_cases hn : n = name
                · subst hn
                  rw [Store.find_modify_self, hb, Option.map_some'] at ha
                  cases Option.some.inj ha
                  exact hch rfl
                · rw [Store.find_modify_other store n name _ (fun hh => hn hh.symm),
                    hb] at ha
                  exact hch (congrArg Session.owner (Option.some.inj ha.symm))
              · rw [if_neg howner] at ha
                simp only [] at ha
                rw [hb] at ha
                exact hch (congrArg Session.owner (Option.some.inj ha.symm))
      | play n p =>
          exfalso
          simp only [step, handle_command, update_session_and_forward] at ha
          cases hf : Store.find store n with
          | none =>
              rw [hf] at ha
              simp only [Store.find] at ha
              rw [hb] at ha
              exact hch (congrArg Session.owner (Option.some.inj ha.symm))
          | some sess =>
              rw [hf] at ha
              simp only [] at ha
              by_cases howner : sess.owner = sender
              · rw [if_pos howner] at ha
                simp only [] at ha
                by_cases hn : n = name
                · subst hn
                  rw [Store.find_modify_self, hb, Option.map_some'] at ha
                  cases Option.some.inj ha
                  exact hch rfl
                · rw [Store.find_modify_other store n name _ (fun hh => hn hh.symm),
                    hb] at ha
                  exact hch (congrArg Session.owner (Option.some.inj ha.symm))
              · rw [if_neg howner] at ha
                simp only [] at ha
                rw [hb] at ha
                exact hch (congrArg Session.owner (Option.some.inj ha.symm))
      | create n tok =>
          simp only [step, handle_command] at ha
          have ha' : Store.find (create_entry sender n tok store) name = some s' :=
            Store.find_filter_nodup _ _ _ _ (create_entry_nodup sender n tok store hnd) ha
          unfold create_entry at ha'
          cases hf : Store.find store n with
          | none =>
              exfalso
              rw [hf] at ha'
              simp only [] at ha'
              rw [Store.find_append_some store _ name s hb] at ha'
              exact hch (congrArg Session.owner (Option.some.inj ha'.symm))
          | some sess =>
              rw [hf] at ha'
              simp only [] at ha'
              by_cases hn : n = name
              · subst hn
                rw [Store.find_modify_self, hb, Option.map_some'] at ha'
                cases Option.some.inj ha'
                by_cases htok : tok = s.owner_token
                · rw [htok]
                  simp [create_modify, htok]
                · exfalso
                  exact hch (by simp [create_modify, htok])
              · exfalso
                rw [Store.find_modify_other store n name _ (fun hh => hn hh.symm),
                  hb] at ha'
                exact hch (congrArg Session.owner (Option.some.inj ha'.symm))

/-- C7 witness: session "a" owned by 1 with token "t" changes owner to 2 after
peer 2 sends a matching Create; the theorem pins that Create as the cause. -/
theorem owner_changes_only_matching_create_witness :
    Op.msg 2 (SyncCommand.create "a" "t")
      = Op.msg ({ owner := 2, owner_token := "t", clients := [5], tick := 3,
                  playing := true,
                  owner_left := none } : Session).owner
          (SyncCommand.create "a"
            ({ owner := 1, owner_token := "t", clients := [5], tick := 3,
               playing := true, owner_left := some 2 } : Session).owner_token) :=
  owner_changes_only_matching_create 0 (Op.msg 2 (SyncCommand.create "a" "t"))
    [("a", { owner := 1, owner_token := "t", clients := [5], tick := 3,
             playing := true, owner_left := some 2 })] "a"
    { owner := 1, owner_token := "t", clients := [5], tick := 3,
      playing := true, owner_left := some 2 }
    { owner := 2, owner_token := "t", clients := [5], tick := 3,
      playing := true, owner_left := none }
    (by simp) rfl rfl (by decide)

end SyncRs
